import Mathlib

/-!
Verification development for the asynchronous task orchestration primitive
`AsyncTaskHelper` of the `common` utility package, together with the
`Array.prototype.split` chunking extension it relies on.

The embedding is a shallow one:

* A task's `asyncTaskFunction` is a callback-style unit of work that (under the
  contract assumed by every property below) invokes its completion callback
  exactly once with an opaque result value.  In the coordinator model a task is
  therefore represented by the value it eventually passes to its completion
  callback (`α`).  Firing a task (`runTask` in the source) is recorded in a
  `firedTasks` log of registry indices; the arrival of each task's completion
  callback is a separate, externally scheduled event, which lets the model
  express pending (never-completing) tasks, arbitrary pool arrival orders and
  stray callbacks after termination.
* The final completion handler (`finalCallback`) is opaque to the coordinator;
  the model identifies a handler by a `Nat` token and logs every invocation
  (token together with the result list passed) in `handlerCalls`.
* The purely diagnostic pieces of state (`instanceID`, `isDebug`, `name`,
  `console.debug` tracing) carry no functional behaviour and are omitted.
-/

/-- Execution mode of the coordinator: `Queue` runs tasks strictly
sequentially, `Pool` runs them concurrently in chunks (source enum
`AsyncTaskHelperTaskMode`). -/
inductive AsyncTaskHelperTaskMode where
  | Queue
  | Pool
deriving DecidableEq, Repr

/-- Chunk bound for pool mode (source constant `_AsyncPoolChunkSize = 30`). -/
def asyncPoolChunkSize : Nat := 30

/-- State of one `AsyncTaskHelper` instance.  Tasks are modelled by the value
each passes to its completion callback; `firedTasks` logs the registry index of
every `runTask` invocation; `handlerCalls` logs every invocation of a final
callback (handler token, result list passed). -/
structure AsyncTaskHelper (α : Type) where
  taskMode : AsyncTaskHelperTaskMode
  asyncTaskList : List α
  asyncTaskResultList : List α
  finalCallback : Option Nat
  isStarted : Bool
  isFinished : Bool
  firedTasks : List Nat
  handlerCalls : List (Nat × List α)
deriving DecidableEq, Repr

/-- Constructor model: `new AsyncTaskHelper(options)` seeds the mode (default
`Queue`), the final callback and the task list; all other state starts clean. -/
def mkAsyncTaskHelper {α : Type} (tasks : List α)
    (mode : Option AsyncTaskHelperTaskMode) (fc : Option Nat) :
    AsyncTaskHelper α :=
  { taskMode := mode.getD AsyncTaskHelperTaskMode.Queue
    asyncTaskList := tasks
    asyncTaskResultList := []
    finalCallback := fc
    isStarted := false
    isFinished := false
    firedTasks := []
    handlerCalls := [] }

namespace AsyncTaskHelper

variable {α : Type}

/-- Source `finished()`: guarded by the one-way `isFinished` flag; on first
invocation it sets the flag and, when a final callback is registered
(`!isNullLike(this.finalCallback)`), invokes it with the result list. -/
def finished (st : AsyncTaskHelper α) : AsyncTaskHelper α :=
  if st.isFinished then st
  else
    let st1 := { st with isFinished := true }
    match st1.finalCallback with
    | none => st1
    | some h => { st1 with handlerCalls := st1.handlerCalls ++ [(h, st1.asyncTaskResultList)] }

/-- Source `asyncTaskFinished(task, result)`: push the result, then transition
to terminal when the result list has caught up with the task list
(`resultList.length >= taskList.length`). -/
def asyncTaskFinished (st : AsyncTaskHelper α) (result : α) : AsyncTaskHelper α :=
  let st1 := { st with asyncTaskResultList := st.asyncTaskResultList ++ [result] }
  if st1.asyncTaskList.length ≤ st1.asyncTaskResultList.length then finished st1 else st1

/-- Source `processNextQueueTask()`: when results have not caught up with the
task list, fire (`runTask`) the task at index `resultList.length`.  The
continuation `(result) => { asyncTaskFinished(...); next() }` supplied by
`runTask` runs at callback arrival and is modelled by `deliverQueueStep`. -/
def processNextQueueTask (st : AsyncTaskHelper α) : AsyncTaskHelper α :=
  if st.asyncTaskResultList.length < st.asyncTaskList.length then
    { st with firedTasks := st.firedTasks ++ [st.asyncTaskResultList.length] }
  else st

/-- Pool-mode fan-out for a registry within the chunk bound: source
`this.asyncTaskList.forEach((t) => this.runTask(t))` fires every task at once
(no `next` continuation); callback arrivals are modelled by `poolArrive`. -/
def poolFireAll (st : AsyncTaskHelper α) : AsyncTaskHelper α :=
  { st with firedTasks := st.firedTasks ++ List.range st.asyncTaskList.length }

/-- Source `start(finalCallback?, taskMode = Queue)`: record the handler
override (`finalCallback ?? this.finalCallback`) and the mode
(`taskMode ?? this.taskMode ?? Queue`; the parameter is never null so the
chain collapses to the argument), no-op when already started, transition
straight to `finished` on an empty registry, otherwise dispatch on the mode.
The pool branch for a registry larger than the chunk bound builds a tree of
nested coordinators; that construction is modelled by `startPoolLarge`. -/
def start (st : AsyncTaskHelper α) (finalCallback : Option Nat)
    (taskMode : AsyncTaskHelperTaskMode) : AsyncTaskHelper α :=
  let st1 := { st with finalCallback := finalCallback <|> st.finalCallback
                       taskMode := taskMode }
  if st1.isStarted then st1
  else
    let st2 := { st1 with isStarted := true }
    if st2.asyncTaskList.length = 0 then st2.finished
    else
      match st2.taskMode with
      | AsyncTaskHelperTaskMode.Queue => st2.processNextQueueTask
      | AsyncTaskHelperTaskMode.Pool =>
          if st2.asyncTaskList.length ≤ asyncPoolChunkSize then st2.poolFireAll
          else st2

/-- A call of `start` with the `taskMode` argument omitted: the TypeScript
default parameter supplies `Queue`. -/
def startDefault (st : AsyncTaskHelper α) (finalCallback : Option Nat) :
    AsyncTaskHelper α :=
  st.start finalCallback AsyncTaskHelperTaskMode.Queue

/-- Source `queue(finalCallback?)` shorthand. -/
def queue (st : AsyncTaskHelper α) (finalCallback : Option Nat) : AsyncTaskHelper α :=
  st.start finalCallback AsyncTaskHelperTaskMode.Queue

/-- Source `pool(finalCallback?)` shorthand. -/
def pool (st : AsyncTaskHelper α) (finalCallback : Option Nat) : AsyncTaskHelper α :=
  st.start finalCallback AsyncTaskHelperTaskMode.Pool

/-- Source `quit(finalCallback?)`: `this.finalCallback = finalCallback ?? null`
(the stored handler is replaced by the argument, or cleared to null when the
argument is absent), then `finished()` is called directly. -/
def quit (st : AsyncTaskHelper α) (finalCallback : Option Nat) : AsyncTaskHelper α :=
  finished { st with finalCallback := finalCallback }

/-- Arrival of the completion callback of the queue-mode task in flight: the
task fired last was the one at index `resultList.length` (its value is that
registry entry), and its continuation runs `asyncTaskFinished` followed by
`next = processNextQueueTask`. -/
def deliverQueueStep (st : AsyncTaskHelper α) : AsyncTaskHelper α :=
  match st.asyncTaskList[st.asyncTaskResultList.length]? with
  | some v => (st.asyncTaskFinished v).processNextQueueTask
  | none => st

/-- Deliver `k` successive queue-mode completion callbacks. -/
def runQueueDeliveries (st : AsyncTaskHelper α) : Nat → AsyncTaskHelper α
  | 0 => st
  | k + 1 => (st.runQueueDeliveries k).deliverQueueStep

/-- Arrival of pool-mode completion callbacks, in the given order of registry
indices.  Each arrival runs the continuation `runTask` installed (just
`asyncTaskFinished`, no `next`); an index outside the registry delivers
nothing. -/
def poolArrive (st : AsyncTaskHelper α) (order : List Nat) : AsyncTaskHelper α :=
  order.foldl
    (fun s i =>
      match s.asyncTaskList[i]? with
      | some v => s.asyncTaskFinished v
      | none => s)
    st

end AsyncTaskHelper

/-- Chunking helper: contiguous chunks of step `s + 1` (the step is encoded as
a successor so that every round consumes at least one element; the caller
`arraySplit` passes the clamped size minus one).  Each round mirrors one
iteration of the source loop `chunkList.push(this.slice(i, i + size))`; the
`fuel` counter, seeded by `chunkList` with the list length, only makes the
recursion structural — it never runs out because every round consumes at
least one element. -/
def chunkListGo {α : Type} (s : Nat) : Nat → List α → List (List α)
  | _, [] => []
  | 0, _ :: _ => []
  | fuel + 1, x :: xs => (x :: xs).take (s + 1) :: chunkListGo s fuel (xs.drop s)

/-- Contiguous chunks of step `s + 1` of a list (see `chunkListGo`). -/
def chunkList {α : Type} (s : Nat) (l : List α) : List (List α) :=
  chunkListGo s l.length l

/-- Source `Array.prototype.split(size)`: the size is clamped by
`size = Math.max(1, size ?? 0)` (a null argument counts as `0`), then the
array is cut into contiguous slices of that length, the last slice possibly
shorter. -/
def arraySplit {α : Type} (l : List α) (size : Option Int) : List (List α) :=
  chunkList ((max 1 (size.getD 0)).toNat - 1) l

namespace AsyncTaskHelper

variable {α : Type}

/-- Pool-mode branch for a registry exceeding the chunk bound (source
`start`, lines 193–208): split the registry into chunks of
`asyncPoolChunkSize`, run each chunk through a child coordinator in pool mode
(the synthetic task's single result is the child's full result list; `orders`
supplies each child's callback-arrival order), sequence the synthetic chunk
tasks through a fresh queue-mode coordinator, and on its completion assign the
flattened (`.flat()`) leveled results to this coordinator's result list and
call `finished()`.  The outer queue coordinator's completion callback is
applied directly rather than through a handler token, and every synthetic
chunk task completes once its child coordinator has consumed its arrival
order. -/
def startPoolLarge (st : AsyncTaskHelper α) (orders : List (List Nat)) :
    AsyncTaskHelper α :=
  let chunks := arraySplit st.asyncTaskList (some (asyncPoolChunkSize : Int))
  let syntheticResults : List (List α) :=
    List.zipWith
      (fun c o =>
        (((mkAsyncTaskHelper c none none).start none AsyncTaskHelperTaskMode.Pool).poolArrive
          o).asyncTaskResultList)
      chunks orders
  let outer : AsyncTaskHelper (List α) :=
    (mkAsyncTaskHelper syntheticResults none none).start none AsyncTaskHelperTaskMode.Queue
  let leveled := (outer.runQueueDeliveries syntheticResults.length).asyncTaskResultList
  finished { st with asyncTaskResultList := leveled.flatten }

end AsyncTaskHelper

/-- Externally observable operations on one coordinator instance: a `start`
call, a `quit` call, or the arrival of a task completion callback carrying an
opaque result value (in queue mode the callback continuation also runs
`next = processNextQueueTask`; in pool mode it does not). -/
inductive AsyncTaskHelperOp (α : Type) where
  | startOp (fc : Option Nat) (mode : AsyncTaskHelperTaskMode)
  | quitOp (fc : Option Nat)
  | arriveOp (v : α)
deriving DecidableEq, Repr

namespace AsyncTaskHelper

variable {α : Type}

/-- Apply one externally observable operation. -/
def applyOp (st : AsyncTaskHelper α) : AsyncTaskHelperOp α → AsyncTaskHelper α
  | AsyncTaskHelperOp.startOp fc mode => st.start fc mode
  | AsyncTaskHelperOp.quitOp fc => st.quit fc
  | AsyncTaskHelperOp.arriveOp v =>
      let st1 := st.asyncTaskFinished v
      match st.taskMode with
      | AsyncTaskHelperTaskMode.Queue => st1.processNextQueueTask
      | AsyncTaskHelperTaskMode.Pool => st1

/-- Apply a sequence of operations in order. -/
def applyOps (st : AsyncTaskHelper α) (ops : List (AsyncTaskHelperOp α)) :
    AsyncTaskHelper α :=
  ops.foldl applyOp st

end AsyncTaskHelper

/-- A registered task record (source type `AsyncTaskHelperTask`):
`asyncTaskFunction` is the opaque unit of work (its identity is all the
registry stores), `taskName` its diagnostic name.  Inside `add`'s pipeline a
`none` name stands for a JavaScript `undefined` value. -/
structure AsyncTaskHelperTask (α : Type) where
  asyncTaskFunction : α
  taskName : Option String
deriving DecidableEq, Repr

/-- One element of the heterogeneous input accepted by `add`: either a bare
completion-style function or a task-like record.  A record's name field is
three-valued to mirror JavaScript object shapes: `none` means the `taskName`
key is absent, `some none` means it is present holding `undefined`, and
`some (some s)` means it holds the string `s`. -/
inductive AsyncTaskCandidate (α : Type) where
  | fn (f : α)
  | record (f : α) (name : Option (Option String))
deriving DecidableEq, Repr

/-- The argument shape of `add`: a null-like value, a single candidate, or an
array of candidates. -/
inductive AsyncTaskAddArg (α : Type) where
  | nullLike
  | one (c : AsyncTaskCandidate α)
  | many (cs : List (AsyncTaskCandidate α))
deriving DecidableEq, Repr

/-- The underlying work function of a candidate. -/
def AsyncTaskCandidate.fnOf {α : Type} : AsyncTaskCandidate α → α
  | AsyncTaskCandidate.fn f => f
  | AsyncTaskCandidate.record f _ => f

/-- Indexed map with an explicit start index; `mapIndexed f 0` models a
JavaScript `map`/`forEach` whose callback observes the element index (and, for
`add`, the per-element `generateUUID()` call sequence). -/
def mapIndexed {β γ : Type} (f : Nat → β → γ) : Nat → List β → List γ
  | _, [] => []
  | i, c :: cs => f i c :: mapIndexed f (i + 1) cs

/-- First stage of `add`'s normalization (the `.map` over the candidate list):
a bare function is wrapped as `{ asyncTaskFunction, taskName: generateUUID() }`;
a record is merged over a generated default name by
`Object.assign({taskName: generateUUID()}, candidate)`, so the generated name
survives only when the record's `taskName` key is absent. -/
def normalizeCandidate {α : Type} (uuid : String) :
    AsyncTaskCandidate α → AsyncTaskHelperTask α
  | AsyncTaskCandidate.fn f => { asyncTaskFunction := f, taskName := some uuid }
  | AsyncTaskCandidate.record f name =>
      { asyncTaskFunction := f
        taskName := match name with
          | none => some uuid
          | some v => v }

/-- Second stage of `add`'s normalization (the `.forEach`): default an
`undefined` name to ``index + "#" + function name`` and trim surrounding
whitespace.  `fnName` models the JavaScript `Function.prototype.name` of the
stored work function. -/
def finalizeTask {α : Type} (fnName : α → String) (index : Nat)
    (t : AsyncTaskHelperTask α) : AsyncTaskHelperTask α :=
  { t with
    taskName :=
      some ((t.taskName.getD (toString index ++ "#" ++ fnName t.asyncTaskFunction)).trim) }

/-- Registry facet of an `AsyncTaskHelper` instance, carrying full task
records (the coordinator facet above abstracts each task to its completion
value). -/
structure AsyncTaskHelperReg (α : Type) where
  taskMode : AsyncTaskHelperTaskMode
  asyncTaskList : List (AsyncTaskHelperTask α)
  isStarted : Bool
  isFinished : Bool
deriving DecidableEq, Repr

/-- Source `add(asyncTaskList)`: a null-like argument is a no-op; otherwise the
argument is coerced to an array, each element normalized
(`normalizeCandidate` with a fresh generated name per element, then
`finalizeTask` with the element's index), and the results pushed onto the
registry in order; the same instance is returned for fluent chaining.  `gen i`
models the value of the `i`-th `Library.Security.generateUUID()` call of the
batch. -/
def AsyncTaskHelperReg.add {α : Type} (gen : Nat → String) (fnName : α → String)
    (st : AsyncTaskHelperReg α) (arg : AsyncTaskAddArg α) : AsyncTaskHelperReg α :=
  match arg with
  | AsyncTaskAddArg.nullLike => st
  | AsyncTaskAddArg.one c =>
      let available := mapIndexed (fun i cand => normalizeCandidate (gen i) cand) 0 [c]
      let finalized := mapIndexed (finalizeTask fnName) 0 available
      { st with asyncTaskList := st.asyncTaskList ++ finalized }
  | AsyncTaskAddArg.many cs =>
      let available := mapIndexed (fun i cand => normalizeCandidate (gen i) cand) 0 cs
      let finalized := mapIndexed (finalizeTask fnName) 0 available
      { st with asyncTaskList := st.asyncTaskList ++ finalized }

namespace AsyncTaskHelper

variable {α : Type}

/-- Closed form of a queue-mode coordinator after `k` delivered completions:
results are the first `k` registry values, tasks `0 … min (k+1) n - 1` have
been fired, and the coordinator is terminal (with the handler fired on the
full result list) exactly when the registry is exhausted. -/
def queueRunState (tasks : List α) (fc : Option Nat) (k : Nat) : AsyncTaskHelper α :=
  { taskMode := AsyncTaskHelperTaskMode.Queue
    asyncTaskList := tasks
    asyncTaskResultList := tasks.take k
    finalCallback := fc
    isStarted := true
    isFinished := decide (tasks.length ≤ k)
    firedTasks := List.range (min (k + 1) tasks.length)
    handlerCalls :=
      if tasks.length ≤ k then
        match fc with
        | some h => [(h, tasks)]
        | none => []
      else [] }

theorem start_queue_eq (tasks : List α) (fc : Option Nat) :
    (mkAsyncTaskHelper tasks none none).start fc AsyncTaskHelperTaskMode.Queue =
      queueRunState tasks fc 0 := by
  cases tasks with
  | nil =>
      cases fc <;>
        simp [start, mkAsyncTaskHelper, queueRunState, finished, processNextQueueTask]
  | cons x xs =>
      cases fc <;>
        simp [start, mkAsyncTaskHelper, queueRunState, finished, processNextQueueTask,
          Nat.succ_le_succ, List.range_succ, Nat.min_eq_left, Nat.succ_le_of_lt]

theorem deliverQueueStep_queueRunState (tasks : List α) (fc : Option Nat) (k : Nat)
    (hk : k < tasks.length) :
    (queueRunState tasks fc k).deliverQueueStep = queueRunState tasks fc (k + 1) := by
  have hlen : (tasks.take k).length = k := by
    simp [List.length_take]
    omega
  have hget : tasks[(tasks.take k).length]? = some (tasks.get ⟨k, hk⟩) := by
    rw [hlen]
    simp [List.getElem?_eq_getElem hk]
  have htake : tasks.take k ++ [tasks.get ⟨k, hk⟩] = tasks.take (k + 1) := by
    rw [List.take_succ]
    simp [List.getElem?_eq_getElem hk]
  rcases Nat.lt_or_ge (k + 1) tasks.length with hlt | hge
  · simp only [deliverQueueStep, queueRunState, hget, asyncTaskFinished,
      processNextQueueTask, finished]
    simp only [htake, hlen]
    have h1 : ¬ tasks.length ≤ k + 1 := by omega
    have h2 : ¬ tasks.length ≤ k := by omega
    have h3 : (tasks.take (k + 1)).length = k + 1 := by
      simp [List.length_take]
      omega
    simp [h1, h2, h3, hlt]
    rw [Nat.min_eq_left (by omega), Nat.min_eq_left (by omega)]
    simp [List.range_succ]
  · have heq : tasks.length = k + 1 := by omega
    simp only [deliverQueueStep, queueRunState, hget, asyncTaskFinished,
      processNextQueueTask, finished]
    simp only [htake, hlen]
    have h1 : tasks.length ≤ k + 1 := by omega
    have h2 : ¬ tasks.length ≤ k := by omega
    have h3 : (tasks.take (k + 1)).length = k + 1 := by
      simp [List.length_take]
      omega
    have h4 : tasks.take (k + 1) = tasks := by
      rw [← heq, List.take_length]
    cases fc with
    | none => simp [h1, h2, h3, h4, heq]
    | some h => simp [h1, h2, h3, h4, heq]

theorem runQueueDeliveries_queueRunState (tasks : List α) (fc : Option Nat) (k : Nat)
    (hk : k ≤ tasks.length) :
    (queueRunState tasks fc 0).runQueueDeliveries k = queueRunState tasks fc k := by
  induction k with
  | zero => rfl
  | succ k ih =>
      have hk' : k < tasks.length := by omega
      simp only [runQueueDeliveries, ih (Nat.le_of_lt hk')]
      exact deliverQueueStep_queueRunState tasks fc k hk'

/-- C1: for every non-empty task list in which each task invokes its
completion callback exactly once, a Queue-mode run drives tasks strictly
sequentially by index equal to the current result-collection length (after `k`
completions the fired indices are exactly `0 … k`, and the results are the
first `k` registry values), and on termination the result collection equals
the task list in registry order, with the completion handler fired once on the
full collection. -/
theorem queue_mode_sequential_registry_order (tasks : List α) (fc : Nat)
    (h : tasks ≠ []) :
    ((mkAsyncTaskHelper tasks none none).start (some fc)
        AsyncTaskHelperTaskMode.Queue).firedTasks = [0] ∧
    (∀ k, k ≤ tasks.length →
      (((mkAsyncTaskHelper tasks none none).start (some fc)
          AsyncTaskHelperTaskMode.Queue).runQueueDeliveries k).asyncTaskResultList =
        tasks.take k) ∧
    (∀ k, k < tasks.length →
      (((mkAsyncTaskHelper tasks none none).start (some fc)
          AsyncTaskHelperTaskMode.Queue).runQueueDeliveries k).firedTasks =
        List.range (k + 1)) ∧
    (((mkAsyncTaskHelper tasks none none).start (some fc)
        AsyncTaskHelperTaskMode.Queue).runQueueDeliveries
          tasks.length).asyncTaskResultList = tasks ∧
    (((mkAsyncTaskHelper tasks none none).start (some fc)
        AsyncTaskHelperTaskMode.Queue).runQueueDeliveries
          tasks.length).isFinished = true ∧
    (((mkAsyncTaskHelper tasks none none).start (some fc)
        AsyncTaskHelperTaskMode.Queue).runQueueDeliveries
          tasks.length).firedTasks = List.range tasks.length ∧
    (((mkAsyncTaskHelper tasks none none).start (some fc)
        AsyncTaskHelperTaskMode.Queue).runQueueDeliveries
          tasks.length).handlerCalls = [(fc, tasks)] := by
  have hn : 0 < tasks.length := List.length_pos.mpr h
  rw [start_queue_eq]
  refine ⟨?_, ?_, ?_, ?_, ?_, ?_, ?_⟩
  · simp [queueRunState, Nat.min_eq_left hn, List.range_succ]
  · intro k hk
    rw [runQueueDeliveries_queueRunState tasks (some fc) k hk]
    simp [queueRunState]
  · intro k hk
    rw [runQueueDeliveries_queueRunState tasks (some fc) k (Nat.le_of_lt hk)]
    simp [queueRunState, Nat.min_eq_left (Nat.succ_le_of_lt hk)]
  · rw [runQueueDeliveries_queueRunState tasks (some fc) tasks.length (Nat.le_refl _)]
    simp [queueRunState]
  · rw [runQueueDeliveries_queueRunState tasks (some fc) tasks.length (Nat.le_refl _)]
    simp [queueRunState]
  · rw [runQueueDeliveries_queueRunState tasks (some fc) tasks.length (Nat.le_refl _)]
    simp [queueRunState, Nat.min_eq_right (Nat.le_succ _)]
  · rw [runQueueDeliveries_queueRunState tasks (some fc) tasks.length (Nat.le_refl _)]
    simp [queueRunState]

/-- Witness for C1 at the spec scenario: 5 tasks each returning their 0-based
index run in Queue mode produce the result collection `[0, 1, 2, 3, 4]`. -/
theorem queue_mode_sequential_registry_order_witness :
    ([0, 1, 2, 3, 4] : List Nat) ≠ [] ∧
    (((mkAsyncTaskHelper ([0, 1, 2, 3, 4] : List Nat) none none).start (some 7)
        AsyncTaskHelperTaskMode.Queue).runQueueDeliveries 5).asyncTaskResultList =
      [0, 1, 2, 3, 4] :=
  ⟨by decide,
    (queue_mode_sequential_registry_order [0, 1, 2, 3, 4] 7 (by decide)).2.2.2.1⟩

theorem finished_asyncTaskList (st : AsyncTaskHelper α) :
    st.finished.asyncTaskList = st.asyncTaskList := by
  simp only [finished]
  split
  · rfl
  · cases st.finalCallback <;> rfl

theorem finished_asyncTaskResultList (st : AsyncTaskHelper α) :
    st.finished.asyncTaskResultList = st.asyncTaskResultList := by
  simp only [finished]
  split
  · rfl
  · cases st.finalCallback <;> rfl

theorem finished_firedTasks (st : AsyncTaskHelper α) :
    st.finished.firedTasks = st.firedTasks := by
  simp only [finished]
  split
  · rfl
  · cases st.finalCallback <;> rfl

theorem finished_isStarted (st : AsyncTaskHelper α) :
    st.finished.isStarted = st.isStarted := by
  simp only [finished]
  split
  · rfl
  · cases st.finalCallback <;> rfl

theorem finished_isFinished (st : AsyncTaskHelper α) :
    st.finished.isFinished = true ∨ st.finished = st := by
  simp only [finished]
  split
  · exact Or.inr rfl
  · cases st.finalCallback <;> simp

theorem finished_isFinished_true (st : AsyncTaskHelper α) :
    st.finished.isFinished = true := by
  simp only [finished]
  split
  · next hf => exact hf
  · cases st.finalCallback <;> rfl

theorem finished_of_isFinished (st : AsyncTaskHelper α) (h : st.isFinished = true) :
    st.finished = st := by
  simp [finished, h]

theorem finished_handlerCalls_of_isFinished (st : AsyncTaskHelper α)
    (h : st.isFinished = true) : st.finished.handlerCalls = st.handlerCalls := by
  rw [finished_of_isFinished st h]

theorem asyncTaskFinished_asyncTaskList (st : AsyncTaskHelper α) (v : α) :
    (st.asyncTaskFinished v).asyncTaskList = st.asyncTaskList := by
  simp only [asyncTaskFinished]
  split
  · rw [finished_asyncTaskList]
  · rfl

theorem asyncTaskFinished_asyncTaskResultList (st : AsyncTaskHelper α) (v : α) :
    (st.asyncTaskFinished v).asyncTaskResultList = st.asyncTaskResultList ++ [v] := by
  simp only [asyncTaskFinished]
  split
  · rw [finished_asyncTaskResultList]
  · rfl

theorem asyncTaskFinished_firedTasks (st : AsyncTaskHelper α) (v : α) :
    (st.asyncTaskFinished v).firedTasks = st.firedTasks := by
  simp only [asyncTaskFinished]
  split
  · rw [finished_firedTasks]
  · rfl

theorem asyncTaskFinished_isStarted (st : AsyncTaskHelper α) (v : α) :
    (st.asyncTaskFinished v).isStarted = st.isStarted := by
  simp only [asyncTaskFinished]
  split
  · rw [finished_isStarted]
  · rfl

theorem asyncTaskFinished_isFinished (st : AsyncTaskHelper α) (v : α) :
    (st.asyncTaskFinished v).isFinished =
      (st.isFinished ||
        decide (st.asyncTaskList.length ≤ st.asyncTaskResultList.length + 1)) := by
  simp only [asyncTaskFinished]
  split
  · next hc =>
      simp only [List.length_append, List.length_cons, List.length_nil] at hc
      rw [finished_isFinished_true]
      simp
      omega
  · next hc =>
      simp only [List.length_append, List.length_cons, List.length_nil] at hc
      simp
      omega

theorem asyncTaskFinished_handlerCalls_of_isFinished (st : AsyncTaskHelper α) (v : α)
    (h : st.isFinished = true) :
    (st.asyncTaskFinished v).handlerCalls = st.handlerCalls := by
  simp only [asyncTaskFinished]
  split
  · rw [finished_handlerCalls_of_isFinished _ (by simpa using h)]
  · rfl

theorem processNextQueueTask_handlerCalls (st : AsyncTaskHelper α) :
    st.processNextQueueTask.handlerCalls = st.handlerCalls := by
  simp only [processNextQueueTask]
  split <;> rfl

theorem processNextQueueTask_isFinished (st : AsyncTaskHelper α) :
    st.processNextQueueTask.isFinished = st.isFinished := by
  simp only [processNextQueueTask]
  split <;> rfl

theorem processNextQueueTask_isStarted (st : AsyncTaskHelper α) :
    st.processNextQueueTask.isStarted = st.isStarted := by
  simp only [processNextQueueTask]
  split <;> rfl

/-- C6: starting a coordinator whose registry is empty, in either mode,
transitions synchronously to the terminal state without firing any task, and
the completion handler is invoked with an empty result collection. -/
theorem start_empty_registry_terminal (fc : Nat) (mode : AsyncTaskHelperTaskMode) :
    (mkAsyncTaskHelper ([] : List α) none none).start (some fc) mode =
      { taskMode := mode
        asyncTaskList := []
        asyncTaskResultList := []
        finalCallback := some fc
        isStarted := true
        isFinished := true
        firedTasks := []
        handlerCalls := [(fc, [])] } := by
  simp [start, mkAsyncTaskHelper, finished]

/-- C7: once a coordinator has been started, any further `start` (and the
`queue`/`pool` shorthands) leaves the whole state — results, fired tasks,
flags, handler-invocation log — untouched, except that it records the supplied
completion handler (keeping the old one when none is supplied) and the mode
argument; no dispatch is re-triggered and no task is re-run. -/
theorem start_after_started_is_noop (st : AsyncTaskHelper α) (fc : Option Nat)
    (mode : AsyncTaskHelperTaskMode) (h : st.isStarted = true) :
    st.start fc mode =
      { st with finalCallback := fc <|> st.finalCallback, taskMode := mode } ∧
    st.queue fc =
      { st with finalCallback := fc <|> st.finalCallback
                taskMode := AsyncTaskHelperTaskMode.Queue } ∧
    st.pool fc =
      { st with finalCallback := fc <|> st.finalCallback
                taskMode := AsyncTaskHelperTaskMode.Pool } := by
  refine ⟨?_, ?_, ?_⟩ <;> simp [start, queue, pool, h]

/-- A concrete already-started coordinator used to witness C7. -/
def sampleStartedHelper : AsyncTaskHelper Nat :=
  { taskMode := AsyncTaskHelperTaskMode.Queue
    asyncTaskList := [1, 2]
    asyncTaskResultList := [5]
    finalCallback := some 3
    isStarted := true
    isFinished := false
    firedTasks := [0]
    handlerCalls := [] }

/-- Witness for C7: a late `start` on a started coordinator only records the
overrides. -/
theorem start_after_started_is_noop_witness :
    sampleStartedHelper.isStarted = true ∧
    sampleStartedHelper.start (some 9) AsyncTaskHelperTaskMode.Pool =
      { sampleStartedHelper with
          finalCallback := some 9 <|> sampleStartedHelper.finalCallback
          taskMode := AsyncTaskHelperTaskMode.Pool } :=
  ⟨rfl,
    (start_after_started_is_noop sampleStartedHelper (some 9)
      AsyncTaskHelperTaskMode.Pool rfl).1⟩

/-- C9: a coordinator constructed with `taskMode: Pool` loses that mode when
`start` is called with the mode argument omitted — the TypeScript parameter
default overwrites the stored mode with `Queue` and the sequential queue
driver runs (only task 0 is fired); only the `pool()` shorthand (or an
explicit mode argument) preserves pool execution, firing the whole registry at
once. -/
theorem startDefault_discards_constructor_pool (tasks : List α) (fc : Nat)
    (h : tasks ≠ []) :
    ((mkAsyncTaskHelper tasks (some AsyncTaskHelperTaskMode.Pool) none).startDefault
        (some fc)).taskMode = AsyncTaskHelperTaskMode.Queue ∧
    ((mkAsyncTaskHelper tasks (some AsyncTaskHelperTaskMode.Pool) none).startDefault
        (some fc)).firedTasks = [0] ∧
    ((mkAsyncTaskHelper tasks (some AsyncTaskHelperTaskMode.Pool) none).pool
        (some fc)).taskMode = AsyncTaskHelperTaskMode.Pool ∧
    (tasks.length ≤ asyncPoolChunkSize →
      ((mkAsyncTaskHelper tasks (some AsyncTaskHelperTaskMode.Pool) none).pool
          (some fc)).firedTasks = List.range tasks.length) := by
  have hn : 0 < tasks.length := List.length_pos.mpr h
  have hne : ¬ tasks.length = 0 := by omega
  refine ⟨?_, ?_, ?_, ?_⟩
  · simp [startDefault, start, mkAsyncTaskHelper, processNextQueueTask, hne, hn]
  · simp [startDefault, start, mkAsyncTaskHelper, processNextQueueTask, hne, hn]
  · simp only [pool, start, mkAsyncTaskHelper]
    simp only [hne]
    simp [poolFireAll]
    split <;> rfl
  · intro hle
    simp only [pool, start, mkAsyncTaskHelper]
    simp [hne, hle, poolFireAll]

/-- Witness for C9 with two tasks: the mode-omitted `start` runs the queue
driver (fires only task 0) while `pool()` fires both tasks. -/
theorem startDefault_discards_constructor_pool_witness :
    ([10, 20] : List Nat) ≠ [] ∧
    ((mkAsyncTaskHelper ([10, 20] : List Nat)
        (some AsyncTaskHelperTaskMode.Pool) none).startDefault (some 1)).taskMode =
      AsyncTaskHelperTaskMode.Queue :=
  ⟨by decide, (startDefault_discards_constructor_pool [10, 20] 1 (by decide)).1⟩

/-- Counterexample for C4 as stated: after `start(handler)` with three pending
(never-completing) queue-mode tasks, `quit()` with no argument reaches the
terminal state but clears the stored handler to null instead of preserving it,
and no completion handler ever fires. -/
theorem quit_without_handler_counterexample :
    (((mkAsyncTaskHelper ([0, 0, 0] : List Nat) none none).start (some 7)
        AsyncTaskHelperTaskMode.Queue).quit none).isFinished = true ∧
    (((mkAsyncTaskHelper ([0, 0, 0] : List Nat) none none).start (some 7)
        AsyncTaskHelperTaskMode.Queue).quit none).finalCallback = none ∧
    (((mkAsyncTaskHelper ([0, 0, 0] : List Nat) none none).start (some 7)
        AsyncTaskHelperTaskMode.Queue).quit none).handlerCalls = [] := by
  decide

/-- C4 (amended): `quit(handler?)` forces an immediate transition to the
terminal state; it sets the completion handler to the supplied one, or clears
it to null when none is supplied (it never preserves a previously registered
handler).  When the coordinator was not already terminal, a handler supplied
to `quit` fires exactly once, synchronously, with the current (empty or
partial) result collection, and with no argument no handler fires at all; a
stray task completion callback arriving after `quit` fires no handler. -/
theorem quit_forces_terminal_replacing_handler (st : AsyncTaskHelper α)
    (fc : Option Nat) (v : α) :
    (st.quit fc).isFinished = true ∧
    (st.quit fc).finalCallback = fc ∧
    (st.quit fc).asyncTaskResultList = st.asyncTaskResultList ∧
    (st.quit fc).handlerCalls =
      st.handlerCalls ++
        (if st.isFinished then []
         else
           match fc with
           | some h => [(h, st.asyncTaskResultList)]
           | none => []) ∧
    ((st.quit fc).applyOp (AsyncTaskHelperOp.arriveOp v)).handlerCalls =
      (st.quit fc).handlerCalls := by
  have hfin : (st.quit fc).isFinished = true := by
    simp only [quit]
    exact finished_isFinished_true _
  refine ⟨hfin, ?_, ?_, ?_, ?_⟩
  · simp only [quit, finished]
    split
    · rfl
    · cases fc <;> rfl
  · simp only [quit]
    rw [finished_asyncTaskResultList]
  · simp only [quit, finished]
    cases hf : st.isFinished <;> cases fc <;> simp [hf]
  · simp only [applyOp]
    cases (st.quit fc).taskMode
    · rw [processNextQueueTask_handlerCalls,
        asyncTaskFinished_handlerCalls_of_isFinished _ _ hfin]
    · rw [asyncTaskFinished_handlerCalls_of_isFinished _ _ hfin]

theorem poolArrive_cons (st : AsyncTaskHelper α) (i : Nat) (order : List Nat) :
    st.poolArrive (i :: order) =
      (match st.asyncTaskList[i]? with
       | some v => st.asyncTaskFinished v
       | none => st).poolArrive order := rfl

theorem poolArrive_asyncTaskList (st : AsyncTaskHelper α) (order : List Nat) :
    (st.poolArrive order).asyncTaskList = st.asyncTaskList := by
  induction order generalizing st with
  | nil => rfl
  | cons i o ih =>
      rw [poolArrive_cons]
      cases h : st.asyncTaskList[i]? with
      | none => simp only [ih]
      | some v => simp only [ih, asyncTaskFinished_asyncTaskList]

theorem poolArrive_asyncTaskResultList (st : AsyncTaskHelper α) (order : List Nat) :
    (st.poolArrive order).asyncTaskResultList =
      st.asyncTaskResultList ++ order.filterMap (fun i => st.asyncTaskList[i]?) := by
  induction order generalizing st with
  | nil => simp [poolArrive]
  | cons i o ih =>
      rw [poolArrive_cons]
      cases h : st.asyncTaskList[i]? with
      | none => simp [h, ih]
      | some v =>
          simp only [h, List.filterMap_cons]
          rw [ih, asyncTaskFinished_asyncTaskResultList, asyncTaskFinished_asyncTaskList]
          simp [h]

theorem poolArrive_isFinished_of_isFinished (st : AsyncTaskHelper α) (order : List Nat)
    (h : st.isFinished = true) : (st.poolArrive order).isFinished = true := by
  induction order generalizing st with
  | nil => exact h
  | cons i o ih =>
      rw [poolArrive_cons]
      cases hg : st.asyncTaskList[i]? with
      | none => exact ih st h
      | some v =>
          refine ih _ ?_
          rw [asyncTaskFinished_isFinished, h]
          rfl

theorem poolArrive_isFinished_false (st : AsyncTaskHelper α) (order : List Nat)
    (hfin : st.isFinished = false)
    (hvalid : ∀ i ∈ order, i < st.asyncTaskList.length)
    (hshort : st.asyncTaskResultList.length + order.length < st.asyncTaskList.length) :
    (st.poolArrive order).isFinished = false := by
  induction order generalizing st with
  | nil => exact hfin
  | cons i o ih =>
      rw [poolArrive_cons]
      have hi : i < st.asyncTaskList.length := hvalid i (List.mem_cons_self i o)
      rw [List.getElem?_eq_getElem hi]
      simp only
      refine ih _ ?_ ?_ ?_
      · rw [asyncTaskFinished_isFinished, hfin]
        simp only [List.length_cons] at hshort
        simp
        omega
      · intro j hj
        rw [asyncTaskFinished_asyncTaskList]
        exact hvalid j (List.mem_cons_of_mem i hj)
      · rw [asyncTaskFinished_asyncTaskList, asyncTaskFinished_asyncTaskResultList]
        simp only [List.length_append, List.length_cons, List.length_nil] at hshort ⊢
        omega

theorem poolArrive_isFinished_true (st : AsyncTaskHelper α) (order : List Nat)
    (hvalid : ∀ i ∈ order, i < st.asyncTaskList.length)
    (hpos : 0 < order.length)
    (hfull : st.asyncTaskList.length ≤ st.asyncTaskResultList.length + order.length) :
    (st.poolArrive order).isFinished = true := by
  induction order generalizing st with
  | nil => simp at hpos
  | cons i o ih =>
      rw [poolArrive_cons]
      have hi : i < st.asyncTaskList.length := hvalid i (List.mem_cons_self i o)
      rw [List.getElem?_eq_getElem hi]
      simp only
      rcases le_or_lt st.asyncTaskList.length (st.asyncTaskResultList.length + 1)
        with hle | hlt
      · refine poolArrive_isFinished_of_isFinished _ _ ?_
        rw [asyncTaskFinished_isFinished]
        simp
        omega
      · refine ih _ ?_ ?_ ?_
        · intro j hj
          rw [asyncTaskFinished_asyncTaskList]
          exact hvalid j (List.mem_cons_of_mem i hj)
        · simp only [List.length_cons] at hfull
          omega
        · rw [asyncTaskFinished_asyncTaskList, asyncTaskFinished_asyncTaskResultList]
          simp only [List.length_append, List.length_cons, List.length_nil,
            List.length_cons] at hfull ⊢
          omega

theorem filterMap_getElem_length (l : List α) (o : List Nat)
    (hvalid : ∀ i ∈ o, i < l.length) :
    (o.filterMap (fun i => l[i]?)).length = o.length := by
  induction o with
  | nil => rfl
  | cons i o ih =>
      have hi : i < l.length := hvalid i (List.mem_cons_self i o)
      rw [List.filterMap_cons, List.getElem?_eq_getElem hi]
      simp only [List.length_cons]
      rw [ih (fun j hj => hvalid j (List.mem_cons_of_mem i hj))]

theorem start_pool_small (tasks : List α) (fc : Option Nat) (h0 : 0 < tasks.length)
    (hle : tasks.length ≤ asyncPoolChunkSize) :
    (mkAsyncTaskHelper tasks none none).start fc AsyncTaskHelperTaskMode.Pool =
      { taskMode := AsyncTaskHelperTaskMode.Pool
        asyncTaskList := tasks
        asyncTaskResultList := []
        finalCallback := fc
        isStarted := true
        isFinished := false
        firedTasks := List.range tasks.length
        handlerCalls := [] } := by
  have hne : ¬ tasks.length = 0 := by omega
  simp [start, mkAsyncTaskHelper, hne, hle, poolFireAll]

/-- C2: for a registry of at most 30 tasks started in Pool mode, every task is
fired immediately and exactly once (`firedTasks` is exactly the registry index
range), the coordinator is not terminal while any completion callback is still
outstanding, and once every task's completion callback has been observed
exactly once (an arbitrary arrival order, i.e. any permutation of the
indices), the coordinator is terminal with as many results as tasks. -/
theorem pool_small_fires_all_and_finishes (tasks : List α) (fc : Nat)
    (hle : tasks.length ≤ asyncPoolChunkSize) (order : List Nat)
    (hperm : order.Perm (List.range tasks.length)) :
    ((mkAsyncTaskHelper tasks none none).start (some fc)
        AsyncTaskHelperTaskMode.Pool).firedTasks = List.range tasks.length ∧
    (∀ k, k < tasks.length →
      (((mkAsyncTaskHelper tasks none none).start (some fc)
          AsyncTaskHelperTaskMode.Pool).poolArrive (order.take k)).isFinished = false) ∧
    (((mkAsyncTaskHelper tasks none none).start (some fc)
        AsyncTaskHelperTaskMode.Pool).poolArrive order).isFinished = true ∧
    (((mkAsyncTaskHelper tasks none none).start (some fc)
        AsyncTaskHelperTaskMode.Pool).poolArrive order).asyncTaskResultList.length =
      tasks.length := by
  have hlen : order.length = tasks.length := by
    have := hperm.length_eq
    simpa using this
  have hvalid : ∀ i ∈ order, i < tasks.length := by
    intro i hi
    have := hperm.mem_iff.mp hi
    exact List.mem_range.mp this
  rcases Nat.eq_zero_or_pos tasks.length with h0 | h0
  · have htasks : tasks = [] := List.length_eq_zero.mp h0
    have horder : order = [] := List.length_eq_zero.mp (by omega)
    subst htasks horder
    refine ⟨?_, ?_, ?_, ?_⟩
    · simp [start, mkAsyncTaskHelper, finished]
    · intro k hk
      simp at hk
    · simp [poolArrive, start, mkAsyncTaskHelper, finished]
    · simp [poolArrive, start, mkAsyncTaskHelper, finished]
  · rw [start_pool_small tasks (some fc) h0 hle]
    refine ⟨rfl, ?_, ?_, ?_⟩
    · intro k hk
      refine poolArrive_isFinished_false _ _ rfl ?_ ?_
      · intro i hi
        exact hvalid i (List.mem_of_mem_take hi)
      · simp only [List.length_take, List.length_nil]
        omega
    · refine poolArrive_isFinished_true _ _ ?_ ?_ ?_
      · intro i hi
        exact hvalid i hi
      · omega
      · simp only [List.length_nil]
        omega
    · rw [poolArrive_asyncTaskResultList]
      simp only [List.nil_append]
      rw [filterMap_getElem_length _ _ hvalid, hlen]

/-- Witness for C2: three tasks in Pool mode, completing in the arrival order
`[2, 0, 1]`. -/
theorem pool_small_fires_all_and_finishes_witness :
    ([5, 6, 7] : List Nat).length ≤ asyncPoolChunkSize ∧
    ([2, 0, 1] : List Nat).Perm (List.range ([5, 6, 7] : List Nat).length) ∧
    (((mkAsyncTaskHelper ([5, 6, 7] : List Nat) none none).start (some 4)
        AsyncTaskHelperTaskMode.Pool).poolArrive [2, 0, 1]).isFinished = true :=
  ⟨by decide, by decide,
    (pool_small_fires_all_and_finishes [5, 6, 7] 4 (by decide) [2, 0, 1]
      (by decide)).2.2.1⟩

end AsyncTaskHelper

theorem chunkListGo_eq_of_le {α : Type} (s : Nat) :
    ∀ (fuel fuel' : Nat) (l : List α), l.length ≤ fuel → l.length ≤ fuel' →
      chunkListGo s fuel l = chunkListGo s fuel' l := by
  intro fuel
  induction fuel with
  | zero =>
      intro fuel' l hl hl'
      have : l = [] := List.length_eq_zero.mp (by omega)
      subst this
      cases fuel' <;> rfl
  | succ fuel ih =>
      intro fuel' l hl hl'
      cases l with
      | nil => cases fuel' <;> rfl
      | cons x xs =>
          cases fuel' with
          | zero => simp at hl'
          | succ fuel' =>
              simp only [chunkListGo]
              rw [ih fuel' (xs.drop s)
                (by simp [List.length_drop]; simp at hl; omega)
                (by simp [List.length_drop]; simp at hl'; omega)]

theorem chunkList_cons {α : Type} (s : Nat) (x : α) (xs : List α) :
    chunkList s (x :: xs) = (x :: xs).take (s + 1) :: chunkList s (xs.drop s) := by
  simp only [chunkList, List.length_cons, chunkListGo]
  rw [chunkListGo_eq_of_le s xs.length (xs.drop s).length (xs.drop s)
    (by simp [List.length_drop]) (Nat.le_refl _)]

theorem chunkList_flatten {α : Type} (s : Nat) (l : List α) :
    (chunkList s l).flatten = l := by
  have main : ∀ (fuel : Nat) (l : List α), l.length ≤ fuel →
      (chunkListGo s fuel l).flatten = l := by
    intro fuel
    induction fuel with
    | zero =>
        intro l hl
        have : l = [] := List.length_eq_zero.mp (by omega)
        subst this
        rfl
    | succ fuel ih =>
        intro l hl
        cases l with
        | nil => rfl
        | cons x xs =>
            simp only [chunkListGo, List.flatten_cons]
            rw [ih (xs.drop s) (by simp [List.length_drop]; simp at hl; omega)]
            simp only [List.take_succ_cons]
            simp [List.take_append_drop]
  exact main l.length l (Nat.le_refl _)

theorem chunkList_eq_nil_iff {α : Type} (s : Nat) (l : List α) :
    chunkList s l = [] ↔ l = [] := by
  cases l with
  | nil => simp [chunkList, chunkListGo]
  | cons x xs =>
      rw [chunkList_cons]
      simp

theorem chunkList_length_bounds {α : Type} (s : Nat) (l : List α) :
    ∀ c ∈ chunkList s l, 1 ≤ c.length ∧ c.length ≤ s + 1 := by
  have main : ∀ (fuel : Nat) (l : List α), l.length ≤ fuel →
      ∀ c ∈ chunkListGo s fuel l, 1 ≤ c.length ∧ c.length ≤ s + 1 := by
    intro fuel
    induction fuel with
    | zero =>
        intro l hl
        have : l = [] := List.length_eq_zero.mp (by omega)
        subst this
        simp [chunkListGo]
    | succ fuel ih =>
        intro l hl
        cases l with
        | nil => simp [chunkListGo]
        | cons x xs =>
            intro c hc
            simp only [chunkListGo] at hc
            rcases List.mem_cons.mp hc with hc | hc
            · subst hc
              simp [List.length_take]
            · exact ih (xs.drop s)
                (by simp [List.length_drop]; simp at hl; omega) c hc
  exact main l.length l (Nat.le_refl _)

theorem chunkList_dropLast_full {α : Type} (s : Nat) (l : List α) :
    ∀ c ∈ (chunkList s l).dropLast, c.length = s + 1 := by
  have main : ∀ (fuel : Nat) (l : List α), l.length ≤ fuel →
      ∀ c ∈ (chunkListGo s fuel l).dropLast, c.length = s + 1 := by
    intro fuel
    induction fuel with
    | zero =>
        intro l hl
        have : l = [] := List.length_eq_zero.mp (by omega)
        subst this
        simp [chunkListGo]
    | succ fuel ih =>
        intro l hl
        cases l with
        | nil => simp [chunkListGo]
        | cons x xs =>
            intro c hc
            simp only [chunkListGo] at hc
            have hxs : xs.length ≤ fuel := by simp at hl; omega
            have hdrop : (xs.drop s).length ≤ fuel := by
              simp [List.length_drop]
              omega
            cases hrest : chunkListGo s fuel (xs.drop s) with
            | nil => simp [hrest] at hc
            | cons r rs =>
                rw [hrest] at hc
                rw [List.dropLast_cons₂] at hc
                rcases List.mem_cons.mp hc with hc | hc
                · subst hc
                  have hd : xs.drop s ≠ [] := by
                    intro hnil
                    rw [hnil] at hrest
                    simp [chunkListGo] at hrest
                  have hs : s < xs.length := by
                    by_contra hle
                    push_neg at hle
                    exact hd (List.drop_eq_nil_of_le hle)
                  simp [List.length_take]
                  omega
                · rw [← hrest] at hc
                  exact ih (xs.drop s) hdrop c hc
  exact main l.length l (Nat.le_refl _)

theorem clampedChunkSize_pos (size : Option Int) :
    1 ≤ (max 1 (size.getD 0)).toNat := by
  have h : (1 : Int) ≤ max 1 (size.getD 0) := le_max_left _ _
  exact Int.toNat_le_toNat h

/-- C10: for every array and every integer size (a null or non-positive size
being clamped to 1), `split` returns contiguous chunks whose concatenation in
order is the original array; every chunk but possibly the last has length
exactly the clamped size, and for a non-empty array the chunk list is
non-empty with every chunk (the last included) of length between 1 and the
clamped size. -/
theorem arraySplit_chunks_spec {α : Type} (l : List α) (size : Option Int) :
    (arraySplit l size).flatten = l ∧
    (∀ c ∈ (arraySplit l size).dropLast, c.length = (max 1 (size.getD 0)).toNat) ∧
    (l ≠ [] →
      arraySplit l size ≠ [] ∧
      ∀ c ∈ arraySplit l size,
        1 ≤ c.length ∧ c.length ≤ (max 1 (size.getD 0)).toNat) := by
  have h1 : 1 ≤ (max 1 (size.getD 0)).toNat := clampedChunkSize_pos size
  have hstep : (max 1 (size.getD 0)).toNat - 1 + 1 = (max 1 (size.getD 0)).toNat := by
    omega
  refine ⟨chunkList_flatten _ l, ?_, ?_⟩
  · intro c hc
    have hfull := chunkList_dropLast_full ((max 1 (size.getD 0)).toNat - 1) l c hc
    rw [hstep] at hfull
    exact hfull
  · intro hl
    constructor
    · simp only [arraySplit, ne_eq, chunkList_eq_nil_iff]
      exact hl
    · intro c hc
      have hb := chunkList_length_bounds ((max 1 (size.getD 0)).toNat - 1) l c hc
      rw [hstep] at hb
      exact hb

/-- Witness for C10 at a concrete array and size. -/
theorem arraySplit_chunks_spec_witness :
    (arraySplit ([1, 2, 3, 4, 5] : List Nat) (some 2)).flatten = [1, 2, 3, 4, 5] ∧
    (∀ c ∈ (arraySplit ([1, 2, 3, 4, 5] : List Nat) (some 2)).dropLast,
      c.length = (max 1 ((some (2 : Int)).getD 0)).toNat) ∧
    (([1, 2, 3, 4, 5] : List Nat) ≠ [] →
      arraySplit ([1, 2, 3, 4, 5] : List Nat) (some 2) ≠ [] ∧
      ∀ c ∈ arraySplit ([1, 2, 3, 4, 5] : List Nat) (some 2),
        1 ≤ c.length ∧ c.length ≤ (max 1 ((some (2 : Int)).getD 0)).toNat) :=
  arraySplit_chunks_spec [1, 2, 3, 4, 5] (some 2)

theorem filterMap_getElem_range' {α : Type} (cl : List α) :
    ∀ (k i : Nat), ((List.range' i k).filterMap (fun j => cl[j]?)) = (cl.drop i).take k := by
  intro k
  induction k with
  | zero => intro i; simp
  | succ k ih =>
      intro i
      rw [List.range'_succ i k 1, List.filterMap_cons]
      cases hg : cl[i]? with
      | none =>
          have hle : cl.length ≤ i := by
            by_contra hlt
            push_neg at hlt
            rw [List.getElem?_eq_getElem hlt] at hg
            exact Option.noConfusion hg
          rw [ih (i + 1)]
          rw [List.drop_eq_nil_of_le hle, List.drop_eq_nil_of_le (by omega)]
          simp
      | some v =>
          have hlt : i < cl.length := by
            by_contra hle
            push_neg at hle
            rw [List.getElem?_eq_none hle] at hg
            exact Option.noConfusion hg
          rw [ih (i + 1)]
          rw [List.drop_eq_getElem_cons hlt, List.take_succ_cons]
          rw [List.getElem?_eq_getElem hlt] at hg
          cases hg
          rfl

theorem filterMap_getElem_range {α : Type} (cl : List α) :
    (List.range cl.length).filterMap (fun j => cl[j]?) = cl := by
  rw [List.range_eq_range', filterMap_getElem_range' cl cl.length 0]
  simp [List.take_length]

namespace AsyncTaskHelper

variable {α : Type}

theorem start_fresh_projections (tasks : List α) (fc : Option Nat)
    (m : AsyncTaskHelperTaskMode) :
    ((mkAsyncTaskHelper tasks none none).start fc m).asyncTaskList = tasks ∧
    ((mkAsyncTaskHelper tasks none none).start fc m).asyncTaskResultList = [] := by
  rcases Nat.eq_zero_or_pos tasks.length with h0 | h0
  · have htasks : tasks = [] := List.length_eq_zero.mp h0
    subst htasks
    cases fc <;> simp [start, mkAsyncTaskHelper, finished]
  · have hne : ¬ tasks.length = 0 := by omega
    cases m
    · simp [start, mkAsyncTaskHelper, hne, processNextQueueTask, h0]
    · by_cases hle : tasks.length ≤ asyncPoolChunkSize
      · simp [start, mkAsyncTaskHelper, hne, hle, poolFireAll]
      · simp [start, mkAsyncTaskHelper, hne, hle]

theorem child_pool_run_results (cl : List α) (o : List Nat) :
    (((mkAsyncTaskHelper cl none none).start none
        AsyncTaskHelperTaskMode.Pool).poolArrive o).asyncTaskResultList =
      o.filterMap (fun i => cl[i]?) := by
  rw [poolArrive_asyncTaskResultList]
  simp only [(start_fresh_projections cl none AsyncTaskHelperTaskMode.Pool).1,
    (start_fresh_projections cl none AsyncTaskHelperTaskMode.Pool).2]
  simp

theorem queue_run_fresh_results {β : Type} (l : List β) (fc : Option Nat) :
    (((mkAsyncTaskHelper l none none).start fc
        AsyncTaskHelperTaskMode.Queue).runQueueDeliveries l.length).asyncTaskResultList =
      l := by
  rw [start_queue_eq, runQueueDeliveries_queueRunState l fc l.length (Nat.le_refl _)]
  simp [queueRunState, List.take_length]

theorem startPoolLarge_spec (st : AsyncTaskHelper α) (orders : List (List Nat)) :
    st.startPoolLarge orders =
      finished { st with asyncTaskResultList :=
        (List.zipWith (fun chunk o => o.filterMap (fun i => chunk[i]?))
          (arraySplit st.asyncTaskList (some (asyncPoolChunkSize : Int)))
          orders).flatten } := by
  unfold startPoolLarge
  simp only [child_pool_run_results, queue_run_fresh_results]

theorem start_pool_large_state (tasks : List α) (fc : Option Nat)
    (h : asyncPoolChunkSize < tasks.length) :
    (mkAsyncTaskHelper tasks none none).start fc AsyncTaskHelperTaskMode.Pool =
      { taskMode := AsyncTaskHelperTaskMode.Pool
        asyncTaskList := tasks
        asyncTaskResultList := []
        finalCallback := fc
        isStarted := true
        isFinished := false
        firedTasks := []
        handlerCalls := [] } := by
  have hne : ¬ tasks.length = 0 := by
    have : 0 < tasks.length := lt_of_le_of_lt (Nat.zero_le _) h
    omega
  have hnle : ¬ tasks.length ≤ asyncPoolChunkSize := by omega
  simp [start, mkAsyncTaskHelper, hne, hnle]

theorem forall₂_perm_flatten_length {β : Type} (xs ys : List (List β))
    (h : List.Forall₂ List.Perm xs ys) : xs.flatten.length = ys.flatten.length := by
  induction h with
  | nil => rfl
  | cons hp hrest ih => simp [List.length_append, hp.length_eq, ih]

theorem zipWith_child_results_perm (chunks : List (List α)) (orders : List (List Nat))
    (hperm : List.Forall₂ (fun o chunk => o.Perm (List.range chunk.length))
      orders chunks) :
    List.Forall₂ List.Perm
      (List.zipWith (fun chunk o => o.filterMap (fun i => chunk[i]?)) chunks orders)
      chunks := by
  induction hperm with
  | nil => simp
  | @cons o chunk os cs hp hrest ih =>
      simp only [List.zipWith_cons_cons]
      refine List.Forall₂.cons ?_ ih
      have hfm := hp.filterMap (fun i => chunk[i]?)
      rw [filterMap_getElem_range chunk] at hfm
      exact hfm

/-- C3: for a registry of more than 30 tasks started in Pool mode, the
recursive chunk composition partitions the registry into contiguous chunks of
30 (last possibly smaller), runs each chunk as a child Pool-mode coordinator
(whose synthetic task forwards the chunk's full result list), sequences the
chunks through a Queue-mode coordinator, and leaves the original coordinator
terminal with its handler fired once on the flattened result collection: the
final collection is the concatenation, in chunk order, of one result list per
chunk, each a permutation of that chunk's values (its own callback-arrival
order), and its total length equals the registry length. -/
theorem pool_large_chunked_composition (tasks : List α) (hId : Nat)
    (h30 : asyncPoolChunkSize < tasks.length) (orders : List (List Nat))
    (hperm : List.Forall₂ (fun o chunk => o.Perm (List.range chunk.length))
      orders (arraySplit tasks (some (asyncPoolChunkSize : Int)))) :
    ∃ perChunk : List (List α),
      (((mkAsyncTaskHelper tasks none none).start (some hId)
          AsyncTaskHelperTaskMode.Pool).startPoolLarge orders).asyncTaskResultList =
        perChunk.flatten ∧
      List.Forall₂ List.Perm perChunk
        (arraySplit tasks (some (asyncPoolChunkSize : Int))) ∧
      (((mkAsyncTaskHelper tasks none none).start (some hId)
          AsyncTaskHelperTaskMode.Pool).startPoolLarge orders).isFinished = true ∧
      (((mkAsyncTaskHelper tasks none none).start (some hId)
          AsyncTaskHelperTaskMode.Pool).startPoolLarge orders).handlerCalls =
        [(hId, perChunk.flatten)] ∧
      (((mkAsyncTaskHelper tasks none none).start (some hId)
          AsyncTaskHelperTaskMode.Pool).startPoolLarge orders).asyncTaskResultList.length =
        tasks.length := by
  rw [start_pool_large_state tasks (some hId) h30, startPoolLarge_spec]
  refine ⟨List.zipWith (fun chunk o => o.filterMap (fun i => chunk[i]?))
    (arraySplit tasks (some (asyncPoolChunkSize : Int))) orders, ?_, ?_, ?_, ?_, ?_⟩
  · simp [finished]
  · exact zipWith_child_results_perm _ orders hperm
  · simp [finished]
  · simp [finished]
  · simp only [finished]
    simp only [Bool.false_eq_true, if_false]
    have hlen := forall₂_perm_flatten_length _ _
      (zipWith_child_results_perm (arraySplit tasks (some (asyncPoolChunkSize : Int)))
        orders hperm)
    have hflat : (arraySplit tasks (some (asyncPoolChunkSize : Int))).flatten = tasks :=
      chunkList_flatten _ tasks
    simp only [hflat] at hlen
    simpa using hlen

set_option maxRecDepth 10000 in
/-- Witness for C3 at the spec scenario: 65 tasks (each returning its registry
index) in Pool mode, each chunk completing in registry order (synchronous
same-latency tasks), yield the result collection `[0 … 64]` in index order. -/
theorem pool_large_chunked_composition_witness :
    (∃ perChunk : List (List Nat),
      (((mkAsyncTaskHelper (List.range 65) none none).start (some 0)
          AsyncTaskHelperTaskMode.Pool).startPoolLarge
            [List.range 30, List.range 30, List.range 5]).asyncTaskResultList =
        perChunk.flatten ∧
      List.Forall₂ List.Perm perChunk
        (arraySplit (List.range 65) (some (asyncPoolChunkSize : Int))) ∧
      (((mkAsyncTaskHelper (List.range 65) none none).start (some 0)
          AsyncTaskHelperTaskMode.Pool).startPoolLarge
            [List.range 30, List.range 30, List.range 5]).isFinished = true ∧
      (((mkAsyncTaskHelper (List.range 65) none none).start (some 0)
          AsyncTaskHelperTaskMode.Pool).startPoolLarge
            [List.range 30, List.range 30, List.range 5]).handlerCalls =
        [(0, perChunk.flatten)] ∧
      (((mkAsyncTaskHelper (List.range 65) none none).start (some 0)
          AsyncTaskHelperTaskMode.Pool).startPoolLarge
            [List.range 30, List.range 30, List.range 5]).asyncTaskResultList.length =
        (List.range 65).length) ∧
    (((mkAsyncTaskHelper (List.range 65) none none).start (some 0)
        AsyncTaskHelperTaskMode.Pool).startPoolLarge
          [List.range 30, List.range 30, List.range 5]).asyncTaskResultList =
      List.range 65 := by
  constructor
  · refine pool_large_chunked_composition (List.range 65) 0 (by decide)
      [List.range 30, List.range 30, List.range 5] ?_
    have h : arraySplit (List.range 65) (some (asyncPoolChunkSize : Int)) =
        [List.range' 0 30, List.range' 30 30, List.range' 60 5] := by decide
    rw [h]
    refine List.Forall₂.cons ?_ (List.Forall₂.cons ?_
      (List.Forall₂.cons ?_ List.Forall₂.nil)) <;> decide
  · decide

theorem poolFireAll_isStarted (st : AsyncTaskHelper α) :
    st.poolFireAll.isStarted = st.isStarted := rfl

theorem poolFireAll_isFinished (st : AsyncTaskHelper α) :
    st.poolFireAll.isFinished = st.isFinished := rfl

theorem poolFireAll_handlerCalls (st : AsyncTaskHelper α) :
    st.poolFireAll.handlerCalls = st.handlerCalls := rfl

theorem start_isStarted_mono (st : AsyncTaskHelper α) (fc : Option Nat)
    (mode : AsyncTaskHelperTaskMode) (h : st.isStarted = true) :
    (st.start fc mode).isStarted = true := by
  simp [start, h]

theorem start_isFinished_mono (st : AsyncTaskHelper α) (fc : Option Nat)
    (mode : AsyncTaskHelperTaskMode) (h : st.isFinished = true) :
    (st.start fc mode).isFinished = true := by
  simp only [start]
  split
  · exact h
  · split
    · exact finished_isFinished_true _
    · split
      · rw [processNextQueueTask_isFinished]
        exact h
      · split
        · rw [poolFireAll_isFinished]
          exact h
        · exact h

/-- One-shot handler invariant: a coordinator that is not yet terminal has an
empty handler-invocation log, and a terminal one has fired its handler at most
once. -/
def handlerOnceInv (st : AsyncTaskHelper α) : Prop :=
  st.handlerCalls.length ≤ if st.isFinished then 1 else 0

theorem handlerOnceInv_finished (st : AsyncTaskHelper α) (h : st.handlerOnceInv) :
    st.finished.handlerOnceInv := by
  unfold handlerOnceInv at h ⊢
  by_cases hf : st.isFinished = true
  · rw [finished_of_isFinished st hf]
    exact h
  · simp only [Bool.not_eq_true] at hf
    rw [hf] at h
    simp at h
    simp only [finished, hf]
    simp only [Bool.false_eq_true, if_false]
    cases st.finalCallback with
    | none => simp [h]
    | some hh => simp [h]

theorem handlerOnceInv_asyncTaskFinished (st : AsyncTaskHelper α) (v : α)
    (h : st.handlerOnceInv) : (st.asyncTaskFinished v).handlerOnceInv := by
  simp only [asyncTaskFinished]
  split
  · exact handlerOnceInv_finished _ h
  · exact h

theorem handlerOnceInv_processNextQueueTask (st : AsyncTaskHelper α)
    (h : st.handlerOnceInv) : st.processNextQueueTask.handlerOnceInv := by
  unfold handlerOnceInv at h ⊢
  rw [processNextQueueTask_handlerCalls, processNextQueueTask_isFinished]
  exact h

theorem handlerOnceInv_start (st : AsyncTaskHelper α) (fc : Option Nat)
    (mode : AsyncTaskHelperTaskMode) (h : st.handlerOnceInv) :
    (st.start fc mode).handlerOnceInv := by
  have h1 : handlerOnceInv { st with finalCallback := fc <|> st.finalCallback
                                     taskMode := mode } := h
  simp only [start]
  split
  · exact h1
  · split
    · exact handlerOnceInv_finished _ h1
    · split
      · exact handlerOnceInv_processNextQueueTask _ h1
      · split
        · unfold handlerOnceInv at h1 ⊢
          rw [poolFireAll_handlerCalls, poolFireAll_isFinished]
          exact h1
        · exact h1

theorem handlerOnceInv_applyOp (st : AsyncTaskHelper α) (op : AsyncTaskHelperOp α)
    (h : st.handlerOnceInv) : (st.applyOp op).handlerOnceInv := by
  cases op with
  | startOp fc mode => exact handlerOnceInv_start st fc mode h
  | quitOp fc =>
      simp only [applyOp, quit]
      exact handlerOnceInv_finished _ h
  | arriveOp v =>
      simp only [applyOp]
      cases st.taskMode
      · exact handlerOnceInv_processNextQueueTask _
          (handlerOnceInv_asyncTaskFinished st v h)
      · exact handlerOnceInv_asyncTaskFinished st v h

theorem applyOp_isStarted_mono (st : AsyncTaskHelper α) (op : AsyncTaskHelperOp α)
    (h : st.isStarted = true) : (st.applyOp op).isStarted = true := by
  cases op with
  | startOp fc mode => exact start_isStarted_mono st fc mode h
  | quitOp fc =>
      simp only [applyOp, quit]
      rw [finished_isStarted]
      exact h
  | arriveOp v =>
      simp only [applyOp]
      cases st.taskMode
      · rw [processNextQueueTask_isStarted, asyncTaskFinished_isStarted]
        exact h
      · rw [asyncTaskFinished_isStarted]
        exact h

theorem applyOp_isFinished_mono (st : AsyncTaskHelper α) (op : AsyncTaskHelperOp α)
    (h : st.isFinished = true) : (st.applyOp op).isFinished = true := by
  cases op with
  | startOp fc mode => exact start_isFinished_mono st fc mode h
  | quitOp fc =>
      simp only [applyOp, quit]
      exact finished_isFinished_true _
  | arriveOp v =>
      simp only [applyOp]
      cases st.taskMode
      · rw [processNextQueueTask_isFinished, asyncTaskFinished_isFinished, h]
        rfl
      · rw [asyncTaskFinished_isFinished, h]
        rfl

theorem applyOps_isStarted_mono (st : AsyncTaskHelper α)
    (ops : List (AsyncTaskHelperOp α)) (h : st.isStarted = true) :
    (st.applyOps ops).isStarted = true := by
  induction ops generalizing st with
  | nil => exact h
  | cons op ops ih => exact ih _ (applyOp_isStarted_mono st op h)

theorem applyOps_isFinished_mono (st : AsyncTaskHelper α)
    (ops : List (AsyncTaskHelperOp α)) (h : st.isFinished = true) :
    (st.applyOps ops).isFinished = true := by
  induction ops generalizing st with
  | nil => exact h
  | cons op ops ih => exact ih _ (applyOp_isFinished_mono st op h)

theorem handlerOnceInv_applyOps (st : AsyncTaskHelper α)
    (ops : List (AsyncTaskHelperOp α)) (h : st.handlerOnceInv) :
    (st.applyOps ops).handlerOnceInv := by
  induction ops generalizing st with
  | nil => exact h
  | cons op ops ih => exact ih _ (handlerOnceInv_applyOp st op h)

theorem applyOps_take_split (st : AsyncTaskHelper α)
    (ops : List (AsyncTaskHelperOp α)) (k m : Nat) (h : k ≤ m) :
    st.applyOps (ops.take m) =
      (st.applyOps (ops.take k)).applyOps ((ops.drop k).take (m - k)) := by
  have hsum : k + (m - k) = m := by omega
  rw [← hsum, List.take_add]
  simp [applyOps, List.foldl_append]

/-- C5: starting from a fresh coordinator, along every sequence of externally
observable operations (start calls, quit calls, task completion callbacks —
including quit after natural completion and stray callbacks after the terminal
state), the `isStarted` and `isFinished` flags each flip from false to true at
most once and are never reset (once true at any prefix they remain true at
every longer prefix), and the completion handler is invoked at most once in
total. -/
theorem lifecycle_flags_monotone_handler_once (tasks : List α)
    (mode : Option AsyncTaskHelperTaskMode) (fc : Option Nat)
    (ops : List (AsyncTaskHelperOp α)) :
    (∀ k m, k ≤ m →
      ((mkAsyncTaskHelper tasks mode fc).applyOps (ops.take k)).isStarted = true →
      ((mkAsyncTaskHelper tasks mode fc).applyOps (ops.take m)).isStarted = true) ∧
    (∀ k m, k ≤ m →
      ((mkAsyncTaskHelper tasks mode fc).applyOps (ops.take k)).isFinished = true →
      ((mkAsyncTaskHelper tasks mode fc).applyOps (ops.take m)).isFinished = true) ∧
    ((mkAsyncTaskHelper tasks mode fc).applyOps ops).handlerCalls.length ≤ 1 := by
  refine ⟨?_, ?_, ?_⟩
  · intro k m hkm h
    rw [applyOps_take_split _ ops k m hkm]
    exact applyOps_isStarted_mono _ _ h
  · intro k m hkm h
    rw [applyOps_take_split _ ops k m hkm]
    exact applyOps_isFinished_mono _ _ h
  · have hinv : (mkAsyncTaskHelper tasks mode fc).handlerOnceInv := by
      unfold handlerOnceInv
      simp [mkAsyncTaskHelper]
    have hfin := handlerOnceInv_applyOps (mkAsyncTaskHelper tasks mode fc) ops hinv
    unfold handlerOnceInv at hfin
    split at hfin
    · exact hfin
    · omega

/-- Witness for C5: a trace with a start, a genuine completion, a quit after
completion, and a stray late callback still fires the handler at most once. -/
theorem lifecycle_flags_monotone_handler_once_witness :
    (((mkAsyncTaskHelper ([1] : List Nat) none (some 2)).applyOps
        (([AsyncTaskHelperOp.startOp (some 3) AsyncTaskHelperTaskMode.Queue,
           AsyncTaskHelperOp.arriveOp 9, AsyncTaskHelperOp.quitOp none,
           AsyncTaskHelperOp.arriveOp 4]).take 3)).isStarted = true) ∧
    ((mkAsyncTaskHelper ([1] : List Nat) none (some 2)).applyOps
        [AsyncTaskHelperOp.startOp (some 3) AsyncTaskHelperTaskMode.Queue,
         AsyncTaskHelperOp.arriveOp 9, AsyncTaskHelperOp.quitOp none,
         AsyncTaskHelperOp.arriveOp 4]).handlerCalls.length ≤ 1 :=
  ⟨(lifecycle_flags_monotone_handler_once ([1] : List Nat) none (some 2)
      [AsyncTaskHelperOp.startOp (some 3) AsyncTaskHelperTaskMode.Queue,
       AsyncTaskHelperOp.arriveOp 9, AsyncTaskHelperOp.quitOp none,
       AsyncTaskHelperOp.arriveOp 4]).1 1 3 (by decide) (by decide),
    (lifecycle_flags_monotone_handler_once ([1] : List Nat) none (some 2)
      [AsyncTaskHelperOp.startOp (some 3) AsyncTaskHelperTaskMode.Queue,
       AsyncTaskHelperOp.arriveOp 9, AsyncTaskHelperOp.quitOp none,
       AsyncTaskHelperOp.arriveOp 4]).2.2⟩

end AsyncTaskHelper

theorem mapIndexed_length {β γ : Type} (f : Nat → β → γ) :
    ∀ (i : Nat) (l : List β), (mapIndexed f i l).length = l.length := by
  intro i l
  induction l generalizing i with
  | nil => rfl
  | cons b bs ih => simp [mapIndexed, ih]

theorem mapIndexed_map {β γ δ : Type} (f : Nat → β → γ) (g : γ → δ) (g' : β → δ)
    (hf : ∀ i b, g (f i b) = g' b) :
    ∀ (i : Nat) (l : List β), (mapIndexed f i l).map g = l.map g' := by
  intro i l
  induction l generalizing i with
  | nil => rfl
  | cons b bs ih => simp [mapIndexed, hf, ih]

theorem finalizeTask_asyncTaskFunction {α : Type} (fnName : α → String) (i : Nat)
    (t : AsyncTaskHelperTask α) :
    (finalizeTask fnName i t).asyncTaskFunction = t.asyncTaskFunction := rfl

theorem normalizeCandidate_asyncTaskFunction {α : Type} (uuid : String)
    (c : AsyncTaskCandidate α) :
    (normalizeCandidate uuid c).asyncTaskFunction = c.fnOf := by
  cases c <;> rfl

/-- C8: `add` accepts a single task-like record, a bare function, an array of
either, or a null-like value.  A null-like argument leaves the registry (and
everything else) unchanged; a bare function is wrapped into a task whose name
is the generated (trimmed) token; accepted tasks are appended to the registry
in input order with their work functions preserved; and `add` always returns
the same coordinator instance — only the registry grows, every other field is
untouched, so the result supports fluent chaining. -/
theorem add_normalizes_and_appends {α : Type} (gen : Nat → String)
    (fnName : α → String) (st : AsyncTaskHelperReg α) :
    (st.add gen fnName AsyncTaskAddArg.nullLike = st) ∧
    (∀ f : α, st.add gen fnName (AsyncTaskAddArg.one (AsyncTaskCandidate.fn f)) =
      { st with asyncTaskList := st.asyncTaskList ++
          [{ asyncTaskFunction := f, taskName := some (gen 0).trim }] }) ∧
    (∀ arg : AsyncTaskAddArg α,
      (st.add gen fnName arg).taskMode = st.taskMode ∧
      (st.add gen fnName arg).isStarted = st.isStarted ∧
      (st.add gen fnName arg).isFinished = st.isFinished ∧
      (st.add gen fnName arg).asyncTaskList.take st.asyncTaskList.length =
        st.asyncTaskList) ∧
    (∀ cs : List (AsyncTaskCandidate α),
      (st.add gen fnName (AsyncTaskAddArg.many cs)).asyncTaskList.length =
        st.asyncTaskList.length + cs.length ∧
      ((st.add gen fnName (AsyncTaskAddArg.many cs)).asyncTaskList.drop
          st.asyncTaskList.length).map AsyncTaskHelperTask.asyncTaskFunction =
        cs.map AsyncTaskCandidate.fnOf) := by
  refine ⟨rfl, ?_, ?_, ?_⟩
  · intro f
    rfl
  · intro arg
    cases arg with
    | nullLike => exact ⟨rfl, rfl, rfl, List.take_length st.asyncTaskList⟩
    | one c =>
        refine ⟨rfl, rfl, rfl, ?_⟩
        simp only [AsyncTaskHelperReg.add]
        exact List.take_left st.asyncTaskList _
    | many cs =>
        refine ⟨rfl, rfl, rfl, ?_⟩
        simp only [AsyncTaskHelperReg.add]
        exact List.take_left st.asyncTaskList _
  · intro cs
    constructor
    · simp only [AsyncTaskHelperReg.add, List.length_append,
        mapIndexed_length]
    · simp only [AsyncTaskHelperReg.add]
      rw [List.drop_left]
      rw [mapIndexed_map (finalizeTask fnName)
        AsyncTaskHelperTask.asyncTaskFunction
        AsyncTaskHelperTask.asyncTaskFunction
        (fun i t => finalizeTask_asyncTaskFunction fnName i t) 0]
      rw [mapIndexed_map (fun i cand => normalizeCandidate (gen i) cand)
        AsyncTaskHelperTask.asyncTaskFunction
        AsyncTaskCandidate.fnOf
        (fun i c => normalizeCandidate_asyncTaskFunction (gen i) c) 0]
